import Mathlib

/-!
# Shallow embedding of `local-mysql-cache` (`src/mysql-cache.js`)

The cache keeps an in-memory `Map` from keys to arrays of records
(`this.data`), refreshed periodically from a SQL query and optionally
persisted to a JSON snapshot file.  We embed the value-level behaviour of
that code:

* a JS `Map` is modelled as an association list `List (K × List R)` in
  insertion order (JS `Map` iteration order is insertion order);
* records are modelled as pure values of a type `R`; `cloneArray`
  (`JSON.parse(JSON.stringify(...))`) is the identity on record *values*
  (the records the cache handles are JSON-serializable), and its
  fresh-object-graph aspect is modelled separately with an explicit heap
  (see the `HeapModel` section);
* the optional `itemClass` constructor is modelled as an
  `Option (R → R)`;
* asynchronous completions (database load, file load, save) are modelled
  as events processed by a step function over an explicit cache state.
-/

set_option autoImplicit false

namespace MySqlCache

variable {K R Row : Type}

/-- A mapper output value: JS distinguishes scalar values from arrays with
`Array.isArray(dataValue)`; `seq` is the array case. -/
inductive MapVal (R : Type) where
  | scalar (r : R)
  | seq (rs : List R)
  deriving DecidableEq, Repr

/-- The flattened record contributions of one mapper output value: a scalar
contributes a singleton (`cacheMap.set(dataKey, [dataValue])` /
`mapDataValue.push(dataValue)`), an array contributes its elements
(`cacheMap.set(dataKey, dataValue)` / `mapDataValue.push(...dataValue)`). -/
def MapVal.contrib : MapVal R → List R
  | .scalar r => [r]
  | .seq rs => rs

/-- `if (Item !== undefined) { ... new Item(dataValue) ... }` in
`loadFromDatabase`: the configured constructor is applied to the scalar
value, or to every element of an array value, before merging. -/
def applyItem (item : Option (R → R)) : MapVal R → MapVal R
  | .scalar r => .scalar (match item with | none => r | some c => c r)
  | .seq rs => .seq (match item with | none => rs | some c => rs.map c)

/-- The per-instance row-mapping configuration:
`keyFieldName` models the extraction `row[this.keyFieldName]`,
`rowAsRec` the use of the whole raw row as the record, and the two
optional overrides are the `parseDataRow` / `parseDataMultiRow` options. -/
structure MapperConfig (Row K R : Type) where
  keyFieldName : Row → K
  rowAsRec : Row → R
  parseDataMultiRow : Option (Row → List (K × MapVal R))
  parseDataRowOpt : Option (Row → K × MapVal R)

/-- The effective `parseDataRow`: the option supplied at construction
(`Object.assign(this, optionsWithDefaults)`) if present, otherwise the
class method `parseDataRow(row) { return [row[this.keyFieldName], row]; }`. -/
def parseDataRow (cfg : MapperConfig Row K R) (row : Row) : K × MapVal R :=
  match cfg.parseDataRowOpt with
  | some f => f row
  | none => (cfg.keyFieldName row, .scalar (cfg.rowAsRec row))

/-- The `mapItems` array built in `loadFromDatabase`: if
`this.parseDataMultiRow !== undefined` every row goes through it
(`mapItems.push(...this.parseDataMultiRow(rows[i]))`), otherwise every row
goes through `parseDataRow` (`mapItems.push(this.parseDataRow(rows[i]))`). -/
def mapItems (cfg : MapperConfig Row K R) (rows : List Row) : List (K × MapVal R) :=
  match cfg.parseDataMultiRow with
  | some f => (rows.map f).flatten
  | none => rows.map (parseDataRow cfg)

/-- The in-memory index: a JS `Map` from key to array of records, as an
association list in insertion order. -/
abbrev Index (K R : Type) := List (K × List R)

/-- `this.data.get(key)`: first-match association lookup (a JS `Map` holds
each key once; on such lists first match is the key's entry). -/
def lookupIdx [DecidableEq K] (idx : Index K R) (k : K) : Option (List R) :=
  match idx with
  | [] => none
  | (k', vs) :: rest => if k' = k then some vs else lookupIdx rest k

/-- Merging one flattened contribution into the cache map under
construction: `cacheMap.get(dataKey)` is `undefined` → `cacheMap.set`
appends a new entry in insertion order; otherwise `push` appends to the
existing array in place. -/
def mergeContrib [DecidableEq K] (m : Index K R) (k : K) (vs : List R) : Index K R :=
  match m with
  | [] => [(k, vs)]
  | (k', vs') :: rest =>
      if k' = k then (k', vs' ++ vs) :: rest else (k', vs') :: mergeContrib rest k vs

/-- The merge loop of `loadFromDatabase` (lines 104–137): process
`mapItems` in order, apply the constructor, and merge each contribution. -/
def buildCacheMap [DecidableEq K] (item : Option (R → R))
    (items : List (K × MapVal R)) : Index K R :=
  items.foldl (fun m kv => mergeContrib m kv.1 (MapVal.contrib (applyItem item kv.2))) []

/-- `loadFromDatabase` on a successful query: `rows == null || rows.length
=== 0` calls `setData()` (brand-new empty map), otherwise the merge loop
builds a new map which is passed to `setData`. -/
def loadFromDatabase [DecidableEq K] (cfg : MapperConfig Row K R)
    (item : Option (R → R)) (rows : Option (List Row)) : Index K R :=
  match rows with
  | none => []
  | some rs => if rs.isEmpty then [] else buildCacheMap item (mapItems cfg rs)

/-- `cloneArray`: `JSON.parse(JSON.stringify(items))` — on record
*values* (JSON-serializable data) this is the identity; object-identity
freshness is modelled separately in the `HeapModel` section. -/
def cloneArray (items : List R) : List R := items

/-- `getValues(key)`: absent key or empty stored array → `[]`; otherwise a
clone of the stored array. -/
def getValues [DecidableEq K] (idx : Index K R) (k : K) : List R :=
  match lookupIdx idx k with
  | none => []
  | some vs => if vs.isEmpty then [] else cloneArray vs

/-- `getFirstValue(key)`: absent key or empty stored array → `null`;
otherwise a clone of the first stored record. -/
def getFirstValue [DecidableEq K] (idx : Index K R) (k : K) : Option R :=
  match lookupIdx idx k with
  | none => none
  | some [] => none
  | some (v :: _) => some v

/-- `getAll()`: concatenate every stored array in map-iteration
(insertion) order, then clone. -/
def getAll (idx : Index K R) : List R :=
  cloneArray ((idx.map Prod.snd).flatten)

/-- `saveToFile`'s serialized form: `JSON.stringify([...this.data])` — the
map's entries as an ordered array of `[key, [record, ...]]` pairs, which
is exactly how the index is already represented here. -/
def serializeData (idx : Index K R) : List (K × List R) := idx

/-- One `map.set(k, v)` of the `new Map(iterable)` construction: an
existing key's value is replaced in place, a new key is appended. -/
def mapSetPair [DecidableEq K] {A : Type} (m : List (K × A)) (k : K) (v : A) :
    List (K × A) :=
  match m with
  | [] => [(k, v)]
  | (k', v') :: rest =>
      if k' = k then (k, v) :: rest else (k', v') :: mapSetPair rest k v

/-- `new Map(pairs)`: insert the pairs left to right. -/
def mapFromPairs [DecidableEq K] {A : Type} (pairs : List (K × A)) : List (K × A) :=
  pairs.foldl (fun m kv => mapSetPair m kv.1 kv.2) []

/-- The configured constructor applied to one record (`new Item(v)`), the
identity when no `itemClass` is configured. -/
def applyItemRec (item : Option (R → R)) (v : R) : R :=
  match item with
  | none => v
  | some c => c v

/-- The `if (Item !== undefined)` loop of `setData`'s array branch: apply
the constructor to every record of a pair's value array. -/
def applyItemList (item : Option (R → R)) (vs : List R) : List R :=
  match item with
  | none => vs
  | some c => vs.map c

/-- The array branch of `setData` (lines 147–162): if `itemClass` is
configured every record of every pair is passed through it
(`mapValues[i] = new Item(mapValues[i])`), then `new Map(mapData)` builds
the index. -/
def setDataArray [DecidableEq K] (item : Option (R → R))
    (pairs : List (K × List R)) : Index K R :=
  mapFromPairs (pairs.map (fun kv => (kv.1, applyItemList item kv.2)))

/-- The total contribution a key `k` receives from a list of mapper
outputs, in output order: the flattened, constructor-applied record lists
of exactly the pairs addressed to `k`.  This is the specification-side
reading of the merge rule, to be compared with `buildCacheMap`. -/
def contribsFor [DecidableEq K] (item : Option (R → R))
    (items : List (K × MapVal R)) (k : K) : List R :=
  (items.map (fun kv =>
    if kv.1 = k then (applyItem item kv.2).contrib else [])).flatten

/-- The observable cache state: the visible index (`this.data`), the
freshness marker (`this.lastUpdate`, as a generation counter bumped on
every `setData`), event counters for the `update` / `error` emissions, and
whether `loadDataPromise` (the promise `ready()`/`ensureCacheReady`
awaits) has been resolved.  The promise is created in `startCache` as
`new Promise(resolve => this.on('update', resolve))`: it resolves on the
first `update` emission. -/
structure CacheState (K R : Type) where
  data : Index K R
  lastUpdateGen : Nat
  updates : Nat
  errors : Nat
  ready : Bool
  deriving DecidableEq

/-- The tail of `setData`: assign `this.data`, set `this.lastUpdate`, and
`this.emit('update')` — which also resolves `loadDataPromise` if it was
still pending. -/
def setDataState (s : CacheState K R) (idx : Index K R) : CacheState K R :=
  { s with
    data := idx
    lastUpdateGen := s.lastUpdateGen + 1
    updates := s.updates + 1
    ready := true }

/-- `this.emit('error', err)`. -/
def emitError (s : CacheState K R) : CacheState K R :=
  { s with errors := s.errors + 1 }

/-- The state constructed in `constructor` / `startCache` before any load
completes: `this.data = new Map()`, no emissions yet, `loadDataPromise`
pending. -/
def initialState : CacheState K R :=
  { data := [], lastUpdateGen := 0, updates := 0, errors := 0, ready := false }

/-- `queryDatabase` outcome: `raw` is what the driver callback delivers
(`.error` = query rejected, `.ok` the row set, which the driver may
report as `null`).  After awaiting the driver, `queryDatabase` runs
`debug('Cache', this.name, 'loaded from database with', rows.length,
'entries')` (line 182); the argument `rows.length` is evaluated eagerly,
so a null row set throws a `TypeError` there and `queryDatabase` rejects
— a null row set never reaches `loadFromDatabase`'s `rows == null`
check. -/
def queryDatabase (raw : Except Unit (Option (List Row))) :
    Except Unit (List Row) :=
  match raw with
  | .error _ => .error ()
  | .ok none => .error ()
  | .ok (some rs) => .ok rs

/-- One complete `loadFromDatabaseAndSaveToFile` cycle.
`q` is the raw driver outcome fed through `queryDatabase`;
`mapperThrows` marks a cycle whose configured mapper throws while
`mapItems` is built (only reachable when there are rows to map);
`saveFails` marks a failing `saveToFile` (serialization or write error).
Any exception is caught at the top and emitted as an `error` event; note
`saveToFile` runs only *after* `setData` has already swapped the new
index in. -/
def runCycle [DecidableEq K] (cfg : MapperConfig Row K R) (item : Option (R → R))
    (shouldSaveToFile : Bool) (s : CacheState K R)
    (q : Except Unit (Option (List Row))) (mapperThrows saveFails : Bool) :
    CacheState K R :=
  match queryDatabase q with
  | .error _ => emitError s
  | .ok rows =>
      if !rows.isEmpty && mapperThrows then
        emitError s
      else
        let s' := setDataState s (loadFromDatabase cfg item (some rows))
        if shouldSaveToFile && saveFails then emitError s' else s'

/-- An asynchronous completion during startup: the initial database load
(`loadFromDatabaseAndSaveToFile`) finishing, or — when persistence is
enabled — `loadCacheFromFile` finishing.  `dbSuccess` carries the row
list the driver delivered: a null row set throws inside `queryDatabase`
(see `queryDatabase`) and therefore surfaces as `dbError`, an `error`
emission.  A missing snapshot file (`ENOENT`) is silently ignored; a
corrupt one emits an `error`; a valid one is parsed and passed to
`setData` (the array branch). -/
inductive StartupEv (Row K R : Type) where
  | dbSuccess (rows : List Row)
  | dbError
  | fileValid (pairs : List (K × List R))
  | fileMissing
  | fileCorrupt
  deriving DecidableEq

/-- Process one startup completion, mirroring the corresponding code path
(`loadFromDatabaseAndSaveToFile` without a save failure, and
`loadCacheFromFile`). -/
def stepStartup [DecidableEq K] (cfg : MapperConfig Row K R) (item : Option (R → R))
    (s : CacheState K R) : StartupEv Row K R → CacheState K R
  | .dbSuccess rows => setDataState s (loadFromDatabase cfg item (some rows))
  | .dbError => emitError s
  | .fileValid pairs => setDataState s (setDataArray item pairs)
  | .fileMissing => s
  | .fileCorrupt => emitError s

/-- Run a sequence of startup completions in the order they resolve. -/
def runStartup [DecidableEq K] (cfg : MapperConfig Row K R) (item : Option (R → R))
    (s : CacheState K R) (tr : List (StartupEv Row K R)) : CacheState K R :=
  tr.foldl (stepStartup cfg item) s

/-- A database-driven index swap: a `dbSuccess` completion (its `setData`
emits `update`). -/
def StartupEv.isDbSwap : StartupEv Row K R → Bool
  | .dbSuccess _ => true
  | _ => false

/-- A snapshot-file pre-warm swap: a `fileValid` completion (its `setData`
emits `update`). -/
def StartupEv.isFileSwap : StartupEv Row K R → Bool
  | .fileValid _ => true
  | _ => false

/-- In a startup trace, file completions can occur only when persistence
(`shouldSaveToFile`) is enabled, and each of the two startup loads
completes at most once. -/
def ValidStartupTrace (shouldSaveToFile : Bool) (tr : List (StartupEv Row K R)) : Prop :=
  (shouldSaveToFile = false →
      ∀ e ∈ tr, e.isFileSwap = false ∧ e ≠ .fileMissing ∧ e ≠ .fileCorrupt) ∧
  (tr.countP (fun e => e.isDbSwap || (e matches .dbError))) ≤ 1 ∧
  (tr.countP (fun e => e.isFileSwap || (e matches .fileMissing) || (e matches .fileCorrupt))) ≤ 1

/-! ## Heap model of `cloneArray`

`cloneArray` is `JSON.parse(JSON.stringify(items))`: it returns a *fresh*
object graph whose values equal the stored ones.  To express the
deep-copy-isolation guarantee we model object identity explicitly: every
record object lives at a heap address, the index stores addresses, and a
clone allocates fresh addresses holding copies of the values.  Mutating a
returned record is then an update of the heap at a returned address. -/

/-- An allocation result: the new heap, the next free address, and the
addresses of the newly allocated objects. -/
structure AllocResult (R : Type) where
  heap : Nat → R
  next : Nat
  addrs : List Nat

/-- Allocate one fresh object per value, in order. -/
def allocList (heap : Nat → R) (next : Nat) : List R → AllocResult R
  | [] => ⟨heap, next, []⟩
  | v :: vs =>
      let r := allocList (Function.update heap next v) (next + 1) vs
      ⟨r.heap, r.next, next :: r.addrs⟩

/-- The heap-level cache state: `idx` is `this.data` holding addresses of
record objects, `heap` gives each address's current value, and addresses
`≥ next` are unallocated. -/
structure HeapState (K R : Type) where
  idx : Index K Nat
  heap : Nat → R
  next : Nat

/-- Well-formedness: every address stored in the index is allocated. -/
def HeapWF (s : HeapState K R) : Prop :=
  ∀ p ∈ s.idx, ∀ a ∈ p.2, a < s.next

/-- `cloneArray` at heap level: an empty input returns `[]` directly
(`if (items.length === 0) return []`); otherwise the JSON round-trip
produces fresh objects whose values copy the inputs'. -/
def cloneArrayH (s : HeapState K R) (addrs : List Nat) : List Nat × HeapState K R :=
  if addrs.isEmpty then ([], s)
  else
    let r := allocList s.heap s.next (addrs.map s.heap)
    (r.addrs, { s with heap := r.heap, next := r.next })

/-- The stored address list for a key, with the `itemValues == null ||
itemValues.length === 0` check collapsing both cases to `[]`. -/
def lookupList [DecidableEq K] (idx : Index K R) (k : K) : List R :=
  (lookupIdx idx k).getD []

/-- `getValues(key)` at heap level: clone the stored addresses. -/
def getValuesH [DecidableEq K] (s : HeapState K R) (k : K) :
    List Nat × HeapState K R :=
  cloneArrayH s (lookupList s.idx k)

/-- `getFirstValue(key)` at heap level: clone the one-element array
`[itemValues[0]]` (empty when the key is absent/empty, modelling `null`). -/
def getFirstValueH [DecidableEq K] (s : HeapState K R) (k : K) :
    List Nat × HeapState K R :=
  cloneArrayH s ((lookupList s.idx k).take 1)

/-- `getAll()` at heap level: clone the concatenation of all stored
arrays. -/
def getAllH (s : HeapState K R) : List Nat × HeapState K R :=
  cloneArrayH s ((s.idx.map Prod.snd).flatten)

/-- A caller mutating the record object at address `a`. -/
def mutateH (s : HeapState K R) (a : Nat) (v : R) : HeapState K R :=
  { s with heap := Function.update s.heap a v }

/-- The record values a `getValues(key)` call hands to the caller. -/
def getValuesVals [DecidableEq K] (s : HeapState K R) (k : K) : List R :=
  ((getValuesH s k).1).map (getValuesH s k).2.heap

/-- The record value a `getFirstValue(key)` call hands to the caller
(`none` models `null`). -/
def getFirstValueVal [DecidableEq K] (s : HeapState K R) (k : K) : Option R :=
  (((getFirstValueH s k).1).map (getFirstValueH s k).2.heap).head?

/-- The record values a `getAll()` call hands to the caller. -/
def getAllVals (s : HeapState K R) : List R :=
  ((getAllH s).1).map (getAllH s).2.heap

/-! ## Basic lemmas about the index operations -/

theorem lookupIdx_mem [DecidableEq K] {idx : Index K R} {k : K} {vs : List R}
    (h : lookupIdx idx k = some vs) : (k, vs) ∈ idx := by
  induction idx with
  | nil => simp [lookupIdx] at h
  | cons p rest ih =>
      obtain ⟨k', vs'⟩ := p
      by_cases hk : k' = k
      · subst hk
        simp [lookupIdx] at h
        subst h
        exact List.mem_cons_self _ _
      · simp [lookupIdx, hk] at h
        exact List.mem_cons_of_mem _ (ih h)

theorem getValues_eq_lookupList [DecidableEq K] (idx : Index K R) (k : K) :
    getValues idx k = lookupList idx k := by
  unfold getValues lookupList cloneArray
  cases h : lookupIdx idx k with
  | none => rfl
  | some vs => cases vs <;> simp

theorem lookupList_mergeContrib [DecidableEq K] (m : Index K R) (k k' : K)
    (vs : List R) :
    lookupList (mergeContrib m k vs) k' =
      if k = k' then lookupList m k' ++ vs else lookupList m k' := by
  induction m with
  | nil =>
      by_cases hk : k = k' <;> simp [mergeContrib, lookupList, lookupIdx, hk]
  | cons p rest ih =>
      obtain ⟨k₀, vs₀⟩ := p
      by_cases h₀ : k₀ = k
      · subst h₀
        by_cases h' : k₀ = k'
        · subst h'
          simp [mergeContrib, lookupList, lookupIdx]
        · simp [mergeContrib, lookupList, lookupIdx, h']
      · by_cases h' : k₀ = k'
        · subst h'
          have hkk' : ¬ k = k₀ := fun h => h₀ h.symm
          simp [mergeContrib, lookupList, lookupIdx, h₀, hkk']
        · simpa [mergeContrib, lookupList, lookupIdx, h₀, h'] using ih

theorem mergeContrib_mem [DecidableEq K] {m : Index K R} {k k' : K}
    {vs vs' : List R} (h : (k', vs') ∈ mergeContrib m k vs) :
    (k', vs') ∈ m ∨ (∃ vs₀, (k', vs₀) ∈ m ∧ vs' = vs₀ ++ vs) ∨
      (k' = k ∧ vs' = vs) := by
  induction m with
  | nil =>
      simp [mergeContrib] at h
      exact Or.inr (Or.inr ⟨h.1, h.2⟩)
  | cons p rest ih =>
      obtain ⟨k₀, vs₀⟩ := p
      by_cases h₀ : k₀ = k
      · subst h₀
        simp [mergeContrib] at h
        rcases h with ⟨hk, hv⟩ | hmem
        · exact Or.inr (Or.inl ⟨vs₀, by simp [hk], hv⟩)
        · exact Or.inl (List.mem_cons_of_mem _ hmem)
      · simp [mergeContrib, h₀] at h
        rcases h with ⟨hk, hv⟩ | hmem
        · exact Or.inl (by simp [hk, hv])
        · rcases ih hmem with h1 | ⟨vs₁, h1, h2⟩ | h1
          · exact Or.inl (List.mem_cons_of_mem _ h1)
          · exact Or.inr (Or.inl ⟨vs₁, List.mem_cons_of_mem _ h1, h2⟩)
          · exact Or.inr (Or.inr h1)

theorem lookupList_buildCacheMap_aux [DecidableEq K] (item : Option (R → R))
    (items : List (K × MapVal R)) (k : K) :
    ∀ m : Index K R,
      lookupList
        (items.foldl
          (fun m kv => mergeContrib m kv.1 (MapVal.contrib (applyItem item kv.2))) m) k
        = lookupList m k ++ contribsFor item items k := by
  induction items with
  | nil => intro m; simp [contribsFor]
  | cons kv rest ih =>
      intro m
      simp only [List.foldl_cons]
      rw [ih, lookupList_mergeContrib]
      by_cases h : kv.1 = k
      · simp [contribsFor, h]
      · simp [contribsFor, h]

theorem contrib_applyItem_ne_nil (item : Option (R → R)) (v : MapVal R)
    (hv : v ≠ MapVal.seq []) : MapVal.contrib (applyItem item v) ≠ [] := by
  cases v with
  | scalar r => cases item <;> simp [applyItem, MapVal.contrib]
  | seq rs =>
      cases rs with
      | nil => exact absurd rfl hv
      | cons r tl => cases item <;> simp [applyItem, MapVal.contrib]

theorem buildCacheMap_aux_nonempty [DecidableEq K] (item : Option (R → R))
    (items : List (K × MapVal R))
    (hne : ∀ kv ∈ items, kv.2 ≠ MapVal.seq ([] : List R)) :
    ∀ m : Index K R, (∀ p ∈ m, p.2 ≠ ([] : List R)) →
      ∀ p ∈ items.foldl
          (fun m kv => mergeContrib m kv.1 (MapVal.contrib (applyItem item kv.2))) m,
        p.2 ≠ ([] : List R) := by
  induction items with
  | nil => intro m hm p hp; exact hm p hp
  | cons kv rest ih =>
      intro m hm p hp
      simp only [List.foldl_cons] at hp
      refine ih (fun q hq => hne q (List.mem_cons_of_mem _ hq)) _ ?_ p hp
      intro q hq
      obtain ⟨k', vs'⟩ := q
      have hvs : MapVal.contrib (applyItem item kv.2) ≠ [] :=
        contrib_applyItem_ne_nil item kv.2 (hne kv (List.mem_cons_self _ _))
      rcases mergeContrib_mem hq with h1 | ⟨vs₀, _, h2⟩ | ⟨_, h2⟩
      · exact hm _ h1
      · simp only [h2]
        intro hcontra
        rcases List.append_eq_nil.mp hcontra with ⟨_, h⟩
        exact hvs h
      · simpa [h2] using hvs

theorem buildCacheMap_aux_range [DecidableEq K] (c : R → R)
    (items : List (K × MapVal R))
    (hrange : ∀ kv ∈ items, ∀ v ∈ MapVal.contrib (applyItem (some c) kv.2),
        ∃ x, v = c x) :
    ∀ m : Index K R, (∀ p ∈ m, ∀ v ∈ p.2, ∃ x, v = c x) →
      ∀ p ∈ items.foldl
          (fun m kv => mergeContrib m kv.1 (MapVal.contrib (applyItem (some c) kv.2))) m,
        ∀ v ∈ p.2, ∃ x, v = c x := by
  induction items with
  | nil => intro m hm p hp; exact hm p hp
  | cons kv rest ih =>
      intro m hm p hp
      simp only [List.foldl_cons] at hp
      refine ih (fun q hq => hrange q (List.mem_cons_of_mem _ hq)) _ ?_ p hp
      intro q hq
      obtain ⟨k', vs'⟩ := q
      have hin : ∀ v ∈ MapVal.contrib (applyItem (some c) kv.2), ∃ x, v = c x :=
        hrange kv (List.mem_cons_self _ _)
      rcases mergeContrib_mem hq with h1 | ⟨vs₀, h1, h2⟩ | ⟨_, h2⟩
      · exact hm _ h1
      · subst h2
        intro v hv
        rcases List.mem_append.mp hv with hv | hv
        · exact hm _ h1 v hv
        · exact hin v hv
      · subst h2
        exact hin

theorem contrib_applyItem_range (c : R → R) (v : MapVal R) :
    ∀ w ∈ MapVal.contrib (applyItem (some c) v), ∃ x, w = c x := by
  cases v with
  | scalar r => simp [applyItem, MapVal.contrib]
  | seq rs =>
      intro w hw
      simp [applyItem, MapVal.contrib] at hw
      obtain ⟨x, _, hx⟩ := hw
      exact ⟨x, hx.symm⟩

theorem mapSetPair_mem {A : Type} [DecidableEq K] {m : List (K × A)} {k k' : K}
    {v v' : A} (h : (k', v') ∈ mapSetPair m k v) :
    (k', v') ∈ m ∨ (k', v') = (k, v) := by
  induction m with
  | nil => simp [mapSetPair] at h; simp [h]
  | cons p rest ih =>
      obtain ⟨k₀, v₀⟩ := p
      by_cases h₀ : k₀ = k
      · subst h₀
        simp [mapSetPair] at h
        rcases h with ⟨h1, h2⟩ | h
        · exact Or.inr (by simp [h1, h2])
        · exact Or.inl (List.mem_cons_of_mem _ h)
      · simp [mapSetPair, h₀] at h
        rcases h with ⟨h1, h2⟩ | h
        · exact Or.inl (by simp [h1, h2])
        · rcases ih h with h | h
          · exact Or.inl (List.mem_cons_of_mem _ h)
          · exact Or.inr h

theorem mapFromPairs_mem_aux {A : Type} [DecidableEq K] (ps : List (K × A)) :
    ∀ (m : List (K × A)) (p : K × A),
      p ∈ ps.foldl (fun m kv => mapSetPair m kv.1 kv.2) m → p ∈ m ∨ p ∈ ps := by
  induction ps with
  | nil => intro m p hm; exact Or.inl hm
  | cons kv rest ih =>
      intro m p hm
      simp only [List.foldl_cons] at hm
      rcases ih _ p hm with h | h
      · obtain ⟨k', v'⟩ := p
        rcases mapSetPair_mem h with h | h
        · exact Or.inl h
        · exact Or.inr (by simp [h])
      · exact Or.inr (List.mem_cons_of_mem _ h)

theorem mapFromPairs_mem {A : Type} [DecidableEq K] {pairs : List (K × A)}
    {p : K × A} (h : p ∈ mapFromPairs pairs) : p ∈ pairs := by
  rcases mapFromPairs_mem_aux pairs [] p h with h' | h'
  · simp at h'
  · exact h'

theorem mapSetPair_of_not_mem {A : Type} [DecidableEq K] (m : List (K × A))
    (k : K) (v : A) (h : k ∉ m.map Prod.fst) : mapSetPair m k v = m ++ [(k, v)] := by
  induction m with
  | nil => rfl
  | cons p rest ih =>
      obtain ⟨k₀, v₀⟩ := p
      simp at h
      have h₀ : k₀ ≠ k := fun hc => h.1 hc.symm
      simp [mapSetPair, h₀, ih (by simpa using h.2)]

theorem mapFromPairs_eq_self {A : Type} [DecidableEq K] (pairs : List (K × A))
    (h : (pairs.map Prod.fst).Nodup) : mapFromPairs pairs = pairs := by
  suffices haux : ∀ (ps : List (K × A)) (m : List (K × A)), (ps.map Prod.fst).Nodup →
      (∀ k ∈ ps.map Prod.fst, k ∉ m.map Prod.fst) →
      ps.foldl (fun m kv => mapSetPair m kv.1 kv.2) m = m ++ ps by
    simpa using haux pairs [] h (by simp)
  intro ps
  induction ps with
  | nil => intro m _ _; simp
  | cons kv rest ih =>
      intro m hnodup hdisj
      simp only [List.foldl_cons]
      rw [mapSetPair_of_not_mem m kv.1 kv.2 (hdisj kv.1 (by simp))]
      rw [ih (m ++ [(kv.1, kv.2)]) (by simpa using hnodup.of_cons) ?_]
      · simp
      · intro k hk
        simp only [List.map_append, List.map_cons, List.map_nil] at *
        intro hc
        rcases List.mem_append.mp hc with hc | hc
        · exact hdisj k (List.mem_cons_of_mem _ hk) hc
        · simp at hc
          exact (List.nodup_cons.mp hnodup).1 (hc ▸ hk)

theorem allocList_next (heap : Nat → R) (next : Nat) (vs : List R) :
    (allocList heap next vs).next = next + vs.length := by
  induction vs generalizing heap next with
  | nil => simp [allocList]
  | cons v tl ih => simp [allocList, ih]; omega

theorem allocList_addrs_ge (heap : Nat → R) (next : Nat) (vs : List R) :
    ∀ a ∈ (allocList heap next vs).addrs, next ≤ a := by
  induction vs generalizing heap next with
  | nil => simp [allocList]
  | cons v tl ih =>
      intro a ha
      simp only [allocList, List.mem_cons] at ha
      rcases ha with rfl | ha
      · exact le_refl _
      · exact le_trans (Nat.le_succ _) (ih _ _ a ha)

theorem allocList_heap_lt (heap : Nat → R) (next : Nat) (vs : List R) :
    ∀ a < next, (allocList heap next vs).heap a = heap a := by
  induction vs generalizing heap next with
  | nil => intro a _; rfl
  | cons v tl ih =>
      intro a ha
      simp only [allocList]
      rw [ih _ _ a (Nat.lt_succ_of_lt ha)]
      exact Function.update_noteq (Nat.ne_of_lt ha) v heap

theorem allocList_vals (heap : Nat → R) (next : Nat) (vs : List R) :
    (allocList heap next vs).addrs.map (allocList heap next vs).heap = vs := by
  induction vs generalizing heap next with
  | nil => rfl
  | cons v tl ih =>
      simp only [allocList, List.map_cons, List.cons.injEq]
      constructor
      · rw [allocList_heap_lt _ _ _ next (Nat.lt_succ_self _)]
        exact Function.update_same next v heap
      · exact ih _ _

theorem cloneArrayH_idx (s : HeapState K R) (addrs : List Nat) :
    ((cloneArrayH s addrs).2).idx = s.idx := by
  unfold cloneArrayH
  split <;> rfl

theorem cloneArrayH_heap_lt (s : HeapState K R) (addrs : List Nat) :
    ∀ a < s.next, ((cloneArrayH s addrs).2).heap a = s.heap a := by
  intro a ha
  unfold cloneArrayH
  split
  · rfl
  · exact allocList_heap_lt _ _ _ a ha

theorem cloneArrayH_ret_ge (s : HeapState K R) (addrs : List Nat) :
    ∀ a ∈ (cloneArrayH s addrs).1, s.next ≤ a := by
  intro a ha
  unfold cloneArrayH at ha
  split at ha
  · simp at ha
  · exact allocList_addrs_ge _ _ _ a ha

theorem cloneArrayH_vals (s : HeapState K R) (addrs : List Nat) :
    (cloneArrayH s addrs).1.map ((cloneArrayH s addrs).2).heap = addrs.map s.heap := by
  unfold cloneArrayH
  split
  · rename_i h
    simp [List.isEmpty_iff.mp h]
  · exact allocList_vals _ _ _

theorem getValuesVals_eq [DecidableEq K] (s : HeapState K R) (k : K) :
    getValuesVals s k = (lookupList s.idx k).map s.heap :=
  cloneArrayH_vals s _

theorem getFirstValueVal_eq [DecidableEq K] (s : HeapState K R) (k : K) :
    getFirstValueVal s k = (((lookupList s.idx k).take 1).map s.heap).head? := by
  unfold getFirstValueVal
  rw [show (getFirstValueH s k).1.map (getFirstValueH s k).2.heap
        = ((lookupList s.idx k).take 1).map s.heap from cloneArrayH_vals s _]

theorem getAllVals_eq (s : HeapState K R) :
    getAllVals s = ((s.idx.map Prod.snd).flatten).map s.heap :=
  cloneArrayH_vals s _

theorem mutateH_idx (s : HeapState K R) (a : Nat) (v : R) :
    (mutateH s a v).idx = s.idx := rfl

theorem mutateH_heap (s : HeapState K R) (a : Nat) (v : R) :
    (mutateH s a v).heap = Function.update s.heap a v := rfl

theorem heap_map_update_unstored {idx : Index K Nat} {heap : Nat → R} {a : Nat}
    {v : R} (ha : ∀ p ∈ idx, ∀ b ∈ p.2, b ≠ a) (l : List Nat)
    (hl : ∀ b ∈ l, ∃ p ∈ idx, b ∈ p.2) :
    l.map (Function.update heap a v) = l.map heap := by
  refine List.map_congr_left ?_
  intro b hb
  obtain ⟨p, hp, hbp⟩ := hl b hb
  exact Function.update_noteq (ha p hp b hbp) v heap

theorem lookupList_sub [DecidableEq K] (idx : Index K R) (k : K) :
    ∀ b ∈ lookupList idx k, ∃ p ∈ idx, b ∈ p.2 := by
  intro b hb
  unfold lookupList at hb
  cases h : lookupIdx idx k with
  | none => simp [h] at hb
  | some l =>
      rw [h] at hb
      exact ⟨(k, l), lookupIdx_mem h, hb⟩

theorem reads_unchanged_of_mutate_unstored [DecidableEq K] (s : HeapState K R)
    (a : Nat) (v : R) (ha : ∀ p ∈ s.idx, ∀ b ∈ p.2, b ≠ a) :
    (∀ k, getValuesVals (mutateH s a v) k = getValuesVals s k) ∧
    (∀ k, getFirstValueVal (mutateH s a v) k = getFirstValueVal s k) ∧
    getAllVals (mutateH s a v) = getAllVals s := by
  refine ⟨fun k => ?_, fun k => ?_, ?_⟩
  · rw [getValuesVals_eq, getValuesVals_eq, mutateH_idx]
    exact heap_map_update_unstored ha _ (lookupList_sub s.idx k)
  · rw [getFirstValueVal_eq, getFirstValueVal_eq, mutateH_idx, mutateH_heap]
    rw [heap_map_update_unstored ha _
      (fun b hb => lookupList_sub s.idx k b (List.take_subset 1 _ hb))]
  · rw [getAllVals_eq, getAllVals_eq, mutateH_idx, mutateH_heap]
    refine heap_map_update_unstored ha _ ?_
    intro b hb
    rcases List.mem_flatten.mp hb with ⟨l, hl, hbl⟩
    rcases List.mem_map.mp hl with ⟨p, hp, rfl⟩
    exact ⟨p, hp, hbl⟩

theorem runStartup_ready_aux [DecidableEq K] (cfg : MapperConfig Row K R)
    (item : Option (R → R)) (tr : List (StartupEv Row K R)) :
    ∀ s : CacheState K R,
      (runStartup cfg item s tr).ready =
        (s.ready || tr.any (fun e => e.isDbSwap || e.isFileSwap)) := by
  induction tr with
  | nil => intro s; simp [runStartup]
  | cons e rest ih =>
      intro s
      have hstep : runStartup cfg item s (e :: rest)
          = runStartup cfg item (stepStartup cfg item s e) rest := rfl
      rw [hstep, ih]
      cases e <;>
        simp [stepStartup, setDataState, emitError, StartupEv.isDbSwap,
          StartupEv.isFileSwap, Bool.or_assoc]

/-! ## Claim theorems -/

/-- C4: the Index built by a refresh cycle processes the mapper outputs in
output order and, for each pair, appends (never overwrites): for every
key, the resulting record list is the in-order concatenation of all
(constructor-applied, flattened) contributions to that key. -/
theorem merge_appends_in_order [DecidableEq K] (item : Option (R → R))
    (items : List (K × MapVal R)) (k : K) :
    getValues (buildCacheMap item items) k = contribsFor item items k := by
  rw [getValues_eq_lookupList]
  have h := lookupList_buildCacheMap_aux item items k []
  simpa [buildCacheMap, lookupList, lookupIdx] using h

/-- C2 (counterexample): a single-row mapper returning an empty sequence
of records makes the merge loop `cacheMap.set` the key to that empty
array, so the Index built by the refresh cycle does map a key to an empty
sequence. -/
theorem empty_seq_key_present :
    lookupIdx (loadFromDatabase
        (⟨id, id, none, some (fun r => (r, MapVal.seq []))⟩ :
          MapperConfig Nat Nat Nat) none (some [0])) 0
      = some [] := rfl

/-- C2 (amended): provided no mapper output value is the empty sequence,
the Index built by a refresh cycle never maps a key to an empty sequence:
every key present has at least one record. -/
theorem built_index_values_nonempty [DecidableEq K] (item : Option (R → R))
    (items : List (K × MapVal R))
    (hne : ∀ kv ∈ items, kv.2 ≠ MapVal.seq ([] : List R))
    (k : K) (vs : List R) (h : lookupIdx (buildCacheMap item items) k = some vs) :
    vs ≠ [] := by
  refine buildCacheMap_aux_nonempty item items hne [] (by simp) (k, vs) ?_
  simpa [buildCacheMap] using lookupIdx_mem h

theorem built_index_values_nonempty_witness : ([5] : List Nat) ≠ [] :=
  built_index_values_nonempty (K := Nat) none [(0, MapVal.scalar 5)]
    (by decide) 0 [5] (by decide)

/-- C6: exactly one mapper form is used per refresh cycle: a supplied
multi-row mapper is used for every row even when a single-row mapper is
also supplied; otherwise a supplied single-row mapper; otherwise the
default `(row[keyFieldName], row)`. -/
theorem mapper_precedence (cfg : MapperConfig Row K R) (rows : List Row) :
    (∀ f, cfg.parseDataMultiRow = some f →
        mapItems cfg rows = (rows.map f).flatten) ∧
    (cfg.parseDataMultiRow = none → ∀ g, cfg.parseDataRowOpt = some g →
        mapItems cfg rows = rows.map g) ∧
    (cfg.parseDataMultiRow = none → cfg.parseDataRowOpt = none →
        mapItems cfg rows = rows.map (fun row =>
          (cfg.keyFieldName row, MapVal.scalar (cfg.rowAsRec row)))) := by
  refine ⟨fun f hf => ?_, fun hm g hg => ?_, fun hm hg => ?_⟩
  · simp [mapItems, hf]
  · simp [mapItems, hm, parseDataRow, hg]
  · simp [mapItems, hm, parseDataRow, hg]

theorem mapper_precedence_witness :
    mapItems (⟨id, id, some (fun r => [(r, MapVal.scalar r)]),
        some (fun r => (r + 1, MapVal.scalar (r + 1)))⟩ :
          MapperConfig Nat Nat Nat) [1, 2]
      = [(1, MapVal.scalar 1), (2, MapVal.scalar 2)] := by
  rw [(mapper_precedence _ [1, 2]).1 _ rfl]
  rfl

/-- C7: with a configured record constructor, every record stored in the
Index — whether by a refresh cycle or by a snapshot reload — has passed
through the constructor before merging. -/
theorem stored_records_constructed [DecidableEq K] (cfg : MapperConfig Row K R)
    (c : R → R) (rows : Option (List Row)) (pairs : List (K × List R)) :
    (∀ p ∈ loadFromDatabase cfg (some c) rows, ∀ v ∈ p.2, ∃ x, v = c x) ∧
    (∀ p ∈ setDataArray (some c) pairs, ∀ v ∈ p.2, ∃ x, v = c x) := by
  constructor
  · intro p hp v hv
    cases rows with
    | none => simp [loadFromDatabase] at hp
    | some rs =>
        by_cases hrs : rs.isEmpty
        · simp [loadFromDatabase, hrs] at hp
        · rw [show loadFromDatabase cfg (some c) (some rs)
                = buildCacheMap (some c) (mapItems cfg rs) by
              simp [loadFromDatabase, hrs]] at hp
          exact buildCacheMap_aux_range c (mapItems cfg rs)
            (fun kv _ => contrib_applyItem_range c kv.2) [] (by simp) p
            (by simpa [buildCacheMap] using hp) v hv
  · intro p hp v hv
    have h1 : p ∈ pairs.map (fun kv => (kv.1, applyItemList (some c) kv.2)) :=
      mapFromPairs_mem (by simpa [setDataArray] using hp)
    rcases List.mem_map.mp h1 with ⟨kv, _, rfl⟩
    simp only [applyItemList] at hv
    rcases List.mem_map.mp hv with ⟨x, _, hx⟩
    exact ⟨x, hx.symm⟩

theorem stored_records_constructed_witness : ∃ x, (6 : Nat) = Nat.succ x :=
  (stored_records_constructed (⟨id, id, none, none⟩ : MapperConfig Nat Nat Nat)
      Nat.succ (some [5]) []).1 (5, [6]) (by decide) 6 (by decide)

/-- C8: looking up a key absent from the Index returns the empty sequence
from `getValues` (never an absent marker) and the absent marker `none`
from `getFirstValue` (and neither operation can throw). -/
theorem absent_key_lookups [DecidableEq K] (idx : Index K R) (k : K)
    (h : lookupIdx idx k = none) :
    getValues idx k = [] ∧ getFirstValue idx k = none := by
  constructor <;> simp [getValues, getFirstValue, h]

theorem absent_key_lookups_witness :
    getValues ([(1, [7])] : Index Nat Nat) 0 = [] ∧
      getFirstValue ([(1, [7])] : Index Nat Nat) 0 = none :=
  absent_key_lookups _ 0 (by decide)

/-- C5 (counterexample): with the (non-idempotent) constructor `Nat.succ`,
reconstructing a serialized Index applies the constructor a second time to
every record, so the round trip changes the value of `getAll`. -/
theorem snapshot_roundtrip_counterexample :
    getAll (setDataArray (some Nat.succ)
        (serializeData ([(0, [5])] : Index Nat Nat)))
      ≠ getAll ([(0, [5])] : Index Nat Nat) := by decide

/-- C5 (amended): serializing an Index and reconstructing it with the same
constructor yields an Index whose `getAll` is value-equal to the
original's, provided the constructor leaves the already-constructed stored
records unchanged (as an idempotent constructor does; the reconstruction
applies the constructor a second time). -/
theorem snapshot_roundtrip [DecidableEq K] (item : Option (R → R))
    (idx : Index K R) (hnodup : (idx.map Prod.fst).Nodup)
    (hfix : ∀ p ∈ idx, ∀ v ∈ p.2, applyItemRec item v = v) :
    getAll (setDataArray item (serializeData idx)) = getAll idx := by
  have hmap : idx.map (fun kv => (kv.1, applyItemList item kv.2)) = idx := by
    have h1 : ∀ p ∈ idx, (p.1, applyItemList item p.2) = p := by
      intro p hp
      have h2 : applyItemList item p.2 = p.2 := by
        cases item with
        | none => rfl
        | some c =>
            simp only [applyItemList]
            have h3 : ∀ v ∈ p.2, c v = v := fun v hv => hfix p hp v hv
            exact (List.map_congr_left h3).trans (by simp)
      rw [h2]
    exact (List.map_congr_left h1).trans (by simp)
  show getAll (mapFromPairs
      (idx.map fun kv => (kv.1, applyItemList item kv.2))) = getAll idx
  rw [hmap, mapFromPairs_eq_self idx hnodup]

theorem snapshot_roundtrip_witness :
    getAll (setDataArray (some (fun _ => 0))
        (serializeData ([(0, [0])] : Index Nat Nat)))
      = getAll ([(0, [0])] : Index Nat Nat) :=
  snapshot_roundtrip (some (fun _ => 0)) [(0, [0])] (by decide) (by decide)

/-- Supporting fact for C10: the true half of the claim.  A refresh cycle
whose query succeeds with an *empty (non-null)* row set swaps in a
brand-new empty Index (so every subsequent lookup returns empty/absent),
bumps the freshness marker, and emits `update`; an `error` is emitted
only when the optional snapshot save itself fails afterwards, never for
the empty result. -/
theorem empty_rows_cycle [DecidableEq K] (cfg : MapperConfig Row K R)
    (item : Option (R → R)) (persist : Bool) (s : CacheState K R)
    (mt sf : Bool) :
    ((runCycle cfg item persist s (.ok (some ([] : List Row))) mt sf).data
        = ([] : Index K R) ∧
      (runCycle cfg item persist s (.ok (some [])) mt sf).updates = s.updates + 1 ∧
      (runCycle cfg item persist s (.ok (some [])) mt sf).lastUpdateGen
        = s.lastUpdateGen + 1 ∧
      (runCycle cfg item persist s (.ok (some [])) mt sf).errors
        = s.errors + (if persist && sf then 1 else 0) ∧
      (runCycle cfg item persist s (.ok (some [])) mt sf).ready = true) ∧
    (∀ k : K, getValues ([] : Index K R) k = []
        ∧ getFirstValue ([] : Index K R) k = none) := by
  by_cases h : (persist && sf) = true <;>
    simp [runCycle, queryDatabase, setDataState, emitError, loadFromDatabase, h,
      getValues, getFirstValue, lookupIdx]

/-- C10 (code bug): a driver callback that succeeds with a *null* row set
never reaches the `rows == null` branch of `loadFromDatabase` (line 82):
`queryDatabase` first evaluates `rows.length` in its debug call (line
182), which throws a `TypeError` on null, so the cycle takes the
catch/`emit('error')` path — the previous Index is kept, no `update` is
emitted and the freshness marker is not bumped, contrary to the claim
(and to the intent of the dead null check). -/
theorem null_rows_cycle_errors :
    (runCycle (⟨id, id, none, none⟩ : MapperConfig Nat Nat Nat) none false
        ⟨[(0, [0])], 1, 1, 0, true⟩ (.ok none) false false).errors = 0 + 1 ∧
    (runCycle (⟨id, id, none, none⟩ : MapperConfig Nat Nat Nat) none false
        ⟨[(0, [0])], 1, 1, 0, true⟩ (.ok none) false false).data = [(0, [0])] ∧
    (runCycle (⟨id, id, none, none⟩ : MapperConfig Nat Nat Nat) none false
        ⟨[(0, [0])], 1, 1, 0, true⟩ (.ok none) false false).updates = 1 ∧
    (runCycle (⟨id, id, none, none⟩ : MapperConfig Nat Nat Nat) none false
        ⟨[(0, [0])], 1, 1, 0, true⟩ (.ok none) false false).lastUpdateGen = 1 := by
  decide

/-- C3 (counterexample): a cycle whose query and mapping succeed but whose
snapshot save fails emits an error notification, yet the Index has already
been swapped by then: lookups after this failed cycle differ from what
they were before it started. -/
theorem save_failure_after_swap :
    (runCycle (⟨id, id, none, none⟩ : MapperConfig Nat Nat Nat) none true
        ⟨[(0, [0])], 1, 1, 0, true⟩ (.ok (some [1])) false true).errors = 0 + 1 ∧
    getValues (runCycle (⟨id, id, none, none⟩ : MapperConfig Nat Nat Nat) none true
        ⟨[(0, [0])], 1, 1, 0, true⟩ (.ok (some [1])) false true).data 0
      ≠ getValues ([(0, [0])] : Index Nat Nat) 0 := by decide

/-- C3 (amended): a refresh cycle that fails at the query or in the mapper
emits an error notification and leaves the previously visible Index
untouched, so every lookup is unchanged; a snapshot-serialization failure
also emits an error, but it occurs after the new Index has already been
swapped in. -/
theorem pre_swap_failure_preserves_index [DecidableEq K]
    (cfg : MapperConfig Row K R) (item : Option (R → R)) (persist : Bool)
    (s : CacheState K R) (q : Except Unit (Option (List Row))) (mt sf : Bool)
    (hfail : q = .error () ∨
      (mt = true ∧ ∃ rs : List Row, q = .ok (some rs) ∧ rs ≠ [])) :
    (runCycle cfg item persist s q mt sf).errors = s.errors + 1 ∧
    (runCycle cfg item persist s q mt sf).data = s.data ∧
    (runCycle cfg item persist s q mt sf).updates = s.updates ∧
    (∀ k, getValues (runCycle cfg item persist s q mt sf).data k
        = getValues s.data k) ∧
    (∀ k, getFirstValue (runCycle cfg item persist s q mt sf).data k
        = getFirstValue s.data k) ∧
    getAll (runCycle cfg item persist s q mt sf).data = getAll s.data := by
  have herr : runCycle cfg item persist s q mt sf = emitError s := by
    rcases hfail with rfl | ⟨hmt, rs, rfl, hrs⟩
    · rfl
    · have hempty : rs.isEmpty = false := by
        cases rs with
        | nil => exact absurd rfl hrs
        | cons a tl => rfl
      simp [runCycle, queryDatabase, hempty, hmt]
  rw [herr]
  simp [emitError]

theorem pre_swap_failure_preserves_index_witness :
    (runCycle (⟨id, id, none, none⟩ : MapperConfig Nat Nat Nat) none false
        ⟨[(0, [0])], 1, 1, 0, true⟩ (.error ()) false false).data = [(0, [0])] ∧
    getValues (runCycle (⟨id, id, none, none⟩ : MapperConfig Nat Nat Nat) none false
        ⟨[(0, [0])], 1, 1, 0, true⟩ (.error ()) false false).data 0
      = getValues ([(0, [0])] : Index Nat Nat) 0 := by
  have h := pre_swap_failure_preserves_index
    (⟨id, id, none, none⟩ : MapperConfig Nat Nat Nat) none false
    ⟨[(0, [0])], 1, 1, 0, true⟩ (.error ()) false false (Or.inl rfl)
  exact ⟨h.2.1, h.2.2.2.1 0⟩

/-- C1 (counterexample): with persistence enabled, a valid startup trace
in which only the snapshot-file pre-warm has completed already resolves
the promise awaited by `ensureCacheReady`, although no database-driven
swap has occurred. -/
theorem file_prewarm_resolves_ready :
    ValidStartupTrace true
      [(StartupEv.fileValid [(0, [0])] : StartupEv Nat Nat Nat)] ∧
    (runStartup (⟨id, id, none, none⟩ : MapperConfig Nat Nat Nat) none
        initialState [StartupEv.fileValid [(0, [0])]]).ready = true ∧
    ([(StartupEv.fileValid [(0, [0])] : StartupEv Nat Nat Nat)].any
        StartupEv.isDbSwap) = false := by
  refine ⟨⟨fun h => absurd h (by decide), by decide, by decide⟩, by decide, by decide⟩

/-- C1 (amended): the promise awaited by `ensureCacheReady` resolves
exactly when some Index swap has emitted `update` — whether the
database-driven swap or the snapshot-file pre-warm swap; the file pre-warm
alone does resolve it. -/
theorem ready_iff_some_swap [DecidableEq K] (cfg : MapperConfig Row K R)
    (item : Option (R → R)) (tr : List (StartupEv Row K R)) :
    (runStartup cfg item initialState tr).ready = true ↔
      tr.any (fun e => e.isDbSwap || e.isFileSwap) = true := by
  rw [runStartup_ready_aux]
  simp [initialState]

theorem clone_isolation_aux [DecidableEq K] (s : HeapState K R) (hwf : HeapWF s)
    (X : List Nat) (a : Nat) (ha : a ∈ (cloneArrayH s X).1) (v : R) :
    (∀ k', getValuesVals (mutateH (cloneArrayH s X).2 a v) k'
        = getValuesVals (cloneArrayH s X).2 k') ∧
    (∀ k', getFirstValueVal (mutateH (cloneArrayH s X).2 a v) k'
        = getFirstValueVal (cloneArrayH s X).2 k') ∧
    getAllVals (mutateH (cloneArrayH s X).2 a v)
      = getAllVals (cloneArrayH s X).2 := by
  have hge : s.next ≤ a := cloneArrayH_ret_ge s X a ha
  refine reads_unchanged_of_mutate_unstored _ a v ?_
  intro p hp b hb
  rw [cloneArrayH_idx] at hp
  exact Nat.ne_of_lt (lt_of_lt_of_le (hwf p hp b hb) hge)

/-- C9: deep-copy isolation — mutating any record object returned by
`getValues`, `getFirstValue`, or `getAll` leaves the cache's stored state
untouched: the values every subsequent read returns are the same as if no
mutation had happened. -/
theorem clone_isolation [DecidableEq K] (s : HeapState K R) (hwf : HeapWF s)
    (k : K) :
    (∀ a ∈ (getValuesH s k).1, ∀ v : R,
        (∀ k', getValuesVals (mutateH (getValuesH s k).2 a v) k'
            = getValuesVals (getValuesH s k).2 k') ∧
        (∀ k', getFirstValueVal (mutateH (getValuesH s k).2 a v) k'
            = getFirstValueVal (getValuesH s k).2 k') ∧
        getAllVals (mutateH (getValuesH s k).2 a v)
          = getAllVals (getValuesH s k).2) ∧
    (∀ a ∈ (getFirstValueH s k).1, ∀ v : R,
        (∀ k', getValuesVals (mutateH (getFirstValueH s k).2 a v) k'
            = getValuesVals (getFirstValueH s k).2 k') ∧
        (∀ k', getFirstValueVal (mutateH (getFirstValueH s k).2 a v) k'
            = getFirstValueVal (getFirstValueH s k).2 k') ∧
        getAllVals (mutateH (getFirstValueH s k).2 a v)
          = getAllVals (getFirstValueH s k).2) ∧
    (∀ a ∈ (getAllH s).1, ∀ v : R,
        (∀ k', getValuesVals (mutateH (getAllH s).2 a v) k'
            = getValuesVals (getAllH s).2 k') ∧
        (∀ k', getFirstValueVal (mutateH (getAllH s).2 a v) k'
            = getFirstValueVal (getAllH s).2 k') ∧
        getAllVals (mutateH (getAllH s).2 a v) = getAllVals (getAllH s).2) :=
  ⟨fun a ha v => clone_isolation_aux s hwf _ a ha v,
   fun a ha v => clone_isolation_aux s hwf _ a ha v,
   fun a ha v => clone_isolation_aux s hwf _ a ha v⟩

theorem clone_isolation_witness :
    getValuesVals (mutateH
        (getValuesH (⟨[(0, [0])], fun _ => 0, 1⟩ : HeapState Nat Nat) 0).2 1 99) 0
      = getValuesVals
        ((getValuesH (⟨[(0, [0])], fun _ => 0, 1⟩ : HeapState Nat Nat) 0)).2 0 :=
  ((clone_isolation (⟨[(0, [0])], fun _ => 0, 1⟩ : HeapState Nat Nat)
      (by unfold HeapWF; decide) 0).1 1 (by decide) 99).1 0

end MySqlCache
